import Mathlib

/-
  Verification development for the wasm-pkg-tools repository.

  The Rust sources are shallowly embedded: Rust `String`/`&str` values are
  modeled as `List Char`, byte buffers as `List Nat`, hash-map fields as
  association lists (the source only uses exact-key lookup, key count and
  sole-key extraction), and fallible functions return `Except`/`Option`.
  Streams (`futures_util`) are modeled as finite lists of items.

  The SHA-256 computation itself lives in the external `sha2` crate; the
  embedding keeps the incremental-hasher structure (the list of absorbed
  bytes) and abstracts the final hex rendering as a function parameter
  `hashHex`, since none of the verified code inspects the digest value.
-/

namespace WasmPkg

/-- Rust strings are modeled as lists of characters. -/
abbrev Str := List Char

/-- Bytes are modeled as natural numbers. -/
abbrev Byte := Nat

/-- The error variants touched by the verified code paths, from
`wasm-pkg-loader/src/lib.rs` / `wasm-pkg-common/src/lib.rs`. -/
inductive Error where
  | InvalidContent (msg : Str)
  | InvalidContentDigest (msg : Str)
  | InvalidRegistryMetadata (msg : Str)
  | InvalidConfig (msg : Str)
  deriving DecidableEq, Repr

/-- `ContentDigest` from `wasm-pkg-loader/src/release.rs` (also re-exported by
the client crate): the only variant is a SHA-256 hex string. -/
inductive ContentDigest where
  | Sha256 (hex : Str)
  deriving DecidableEq, Repr

deriving instance DecidableEq for Except

/-- Rust `char::is_ascii_hexdigit`: `0-9`, `a-f`, `A-F`. -/
def isAsciiHexdigit (c : Char) : Bool :=
  (decide (48 ≤ c.toNat) && decide (c.toNat ≤ 57)) ||
  (decide (97 ≤ c.toNat) && decide (c.toNat ≤ 102)) ||
  (decide (65 ≤ c.toNat) && decide (c.toNat ≤ 70))

/-- The fixed digest scheme tag `sha256:`. -/
def sha256Tag : Str := "sha256:".toList

/-- `Display for ContentDigest`: renders as `sha256:<hex>`. -/
def ContentDigest.render : ContentDigest → Str
  | .Sha256 hex => sha256Tag ++ hex

/-- `TryFrom<&str> for ContentDigest`: strip the `sha256:` tag, lowercase,
require 64 characters, require every character to be an ASCII hex digit.
Rust `str::to_lowercase` is modeled by `Char.toLower` per character (the
ASCII case, which is all the hex-digit alphabet involves). -/
def ContentDigest.tryFrom (value : Str) : Except Error ContentDigest :=
  if sha256Tag.isPrefixOf value then
    let hex := (value.drop sha256Tag.length).map Char.toLower
    if hex.length ≠ 64 then
      .error (.InvalidContentDigest "must be 64 hex digits".toList)
    else
      match hex.find? (fun c => !isAsciiHexdigit c) with
      | some _ => .error (.InvalidContentDigest "must be hex".toList)
      | none => .ok (.Sha256 hex)
  else
    .error (.InvalidContentDigest "must start with sha256:".toList)

/-- The message built by `validating_stream` on digest mismatch:
`expected digest {want}, got {got}`. -/
def invalidContentMsg (want got : ContentDigest) : Str :=
  "expected digest ".toList ++ want.render ++ ", got ".toList ++ got.render

/-- The `scan` closure of `ContentDigest::validating_stream`, run over the
whole (finite) item sequence.  State is the list of bytes the `Sha256`
hasher has absorbed; `Ok(Some bytes)` items are forwarded while updating the
hasher; the `Ok(None)` sentinel finalizes (`std::mem::take` resets the
hasher) and either terminates the stream (digest match) or emits the
`InvalidContent` error; `Err` items are forwarded unchanged. -/
def validatingScan (hashHex : List Byte → Str) (want : ContentDigest) :
    List Byte → List (Except Error (Option (List Byte))) → List (Except Error (List Byte))
  | _, [] => []
  | hasher, .ok (some bytes) :: rest =>
      .ok bytes :: validatingScan hashHex want (hasher ++ bytes) rest
  | hasher, .ok none :: rest =>
      let got := ContentDigest.Sha256 (hashHex hasher)
      if got = want then []
      else .error (.InvalidContent (invalidContentMsg want got)) ::
        validatingScan hashHex want [] rest
  | hasher, .error e :: rest => .error e :: validatingScan hashHex want hasher rest

/-- `ContentDigest::validating_stream`: map `Ok` items into `Some`, chain a
single `Ok(None)` sentinel, and scan with a fresh SHA-256 hasher.
`hashHex` abstracts the hex rendering of the SHA-256 of a byte sequence. -/
def ContentDigest.validating_stream (hashHex : List Byte → Str) (want : ContentDigest)
    (stream : List (Except Error (List Byte))) : List (Except Error (List Byte)) :=
  validatingScan hashHex want [] (stream.map (·.map some) ++ [.ok none])

/-! ## Configuration (`wasm-pkg-common/src/config.rs`) -/

/-- Kebab-case label; the verified code only uses it as an exact-match key. -/
abbrev Label := Str

/-- `PackageRef`: a `namespace:name` pair.  The namespace field is called
`ns` because `namespace` is a Lean keyword. -/
structure PackageRef where
  ns : Label
  name : Label
  deriving DecidableEq, Repr

/-- `Registry`: an HTTP authority, host plus optional port. -/
structure Registry where
  host : Str
  port : Option Nat
  deriving DecidableEq, Repr

/-- Decimal rendering of a natural number. -/
def natRender (n : Nat) : Str := Nat.toDigits 10 n

/-- `Display for Registry` (via `http::uri::Authority`): `host[:port]`. -/
def Registry.render (r : Registry) : Str :=
  r.host ++ (match r.port with
    | some p => ':' :: natRender p
    | none => [])

/-- Exact-key lookup, modeling `HashMap::get`. -/
def lookupKey {α β : Type} [DecidableEq α] : List (α × β) → α → Option β
  | [], _ => none
  | (k, v) :: rest, x => if k = x then some v else lookupKey rest x

/-- `Config` (the fields used by `Config::resolve_registry`; the
`registry_configs` map is not consulted there and is modeled separately as
`RegistryConfig` where needed). -/
structure Config where
  default_registry : Option Registry
  namespace_registries : List (Label × Registry)
  package_registry_overrides : List (PackageRef × Registry)
  fallback_namespace_registries : List (Label × Registry)
  deriving DecidableEq, Repr

/-- `Config::resolve_registry`: package override, then namespace registry,
then default registry, then built-in fallback namespace registry. -/
def Config.resolve_registry (c : Config) (package : PackageRef) : Option Registry :=
  match lookupKey c.package_registry_overrides package with
  | some reg => some reg
  | none =>
    match lookupKey c.namespace_registries package.ns with
    | some reg => some reg
    | none =>
      match c.default_registry with
      | some reg => some reg
      | none => lookupKey c.fallback_namespace_registries package.ns

/-! ## Semantic versions (external `semver` crate, as used by the resolver)

The resolver manipulates versions only through the `semver` crate's `Ord`
for `Version` and `VersionReq::matches`.  Both are embedded below following
the crate's implementation (`semver-1.x`, `src/eval.rs` and `src/impls.rs`);
build metadata is omitted (no claim exercises it). -/

/-- A pre-release identifier: numeric or alphanumeric. -/
inductive PreIdent where
  | num (n : Nat)
  | alpha (s : Str)
  deriving DecidableEq, Repr

/-- Lexicographic `Ordering`-valued comparison of lists from an element
comparison (shorter prefixes compare as less). -/
def listLexCmp (cmp : α → α → Ordering) : List α → List α → Ordering
  | [], [] => .eq
  | [], _ :: _ => .lt
  | _ :: _, [] => .gt
  | a :: as, b :: bs => (cmp a b).then (listLexCmp cmp as bs)

/-- Rust `str` ordering (lexicographic; codepoint order coincides with the
byte order Rust uses). -/
def charsCmp : Str → Str → Ordering := listLexCmp compare

/-- Pre-release identifier ordering: numeric identifiers sort below
alphanumeric ones; numerics compare numerically, alphanumerics lexically. -/
def PreIdent.cmp : PreIdent → PreIdent → Ordering
  | .num a, .num b => compare a b
  | .num _, .alpha _ => .lt
  | .alpha _, .num _ => .gt
  | .alpha a, .alpha b => charsCmp a b

/-- Identifier-list ordering within two non-empty pre-releases. -/
def identsCmp : List PreIdent → List PreIdent → Ordering := listLexCmp PreIdent.cmp

/-- `Ord for Prerelease`: an empty pre-release (a release) is greater than
any non-empty one; two non-empty pre-releases compare identifier-wise. -/
def preCmp (a b : List PreIdent) : Ordering :=
  match a, b with
  | [], [] => .eq
  | [], _ :: _ => .gt
  | _ :: _, [] => .lt
  | _ :: _, _ :: _ => identsCmp a b

/-- `semver::Version` (build metadata omitted; unused by any claim). -/
structure Version where
  major : Nat
  minor : Nat
  patch : Nat
  pre : List PreIdent
  deriving DecidableEq, Repr

/-- `Ord for Version`: major, minor, patch, then pre-release. -/
def Version.cmp (a b : Version) : Ordering :=
  (compare a.major b.major).then
    ((compare a.minor b.minor).then
      ((compare a.patch b.patch).then (preCmp a.pre b.pre)))

/-- Rendering of a pre-release identifier. -/
def PreIdent.render : PreIdent → Str
  | .num n => natRender n
  | .alpha s => s

/-- `Display for Version` (build metadata omitted). -/
def Version.render (v : Version) : Str :=
  natRender v.major ++ '.' :: natRender v.minor ++ '.' :: natRender v.patch ++
    (match v.pre with
     | [] => []
     | p :: ps => '-' :: (p.render ++ (ps.map (fun q => '.' :: q.render)).flatten))

/-- `semver::Op` (the comparator operators). -/
inductive Op where
  | Exact | Greater | GreaterEq | Less | LessEq | Tilde | Caret | Wildcard
  deriving DecidableEq, Repr

/-- `semver::Comparator`. -/
structure Comparator where
  op : Op
  major : Nat
  minor : Option Nat
  patch : Option Nat
  pre : List PreIdent
  deriving DecidableEq, Repr

/-- `semver::VersionReq`: a conjunction of comparators. -/
structure VersionReq where
  comparators : List Comparator
  deriving DecidableEq, Repr

/-- `matches_exact` from the semver crate. -/
def matchesExact (cmp : Comparator) (ver : Version) : Bool :=
  decide (ver.major = cmp.major) &&
  (match cmp.minor with
   | none => true
   | some minor => decide (ver.minor = minor)) &&
  (match cmp.patch with
   | none => true
   | some patch => decide (ver.patch = patch)) &&
  decide (ver.pre = cmp.pre)

/-- `matches_greater` from the semver crate. -/
def matchesGreater (cmp : Comparator) (ver : Version) : Bool :=
  if ver.major ≠ cmp.major then decide (ver.major > cmp.major)
  else match cmp.minor with
  | none => false
  | some minor =>
    if ver.minor ≠ minor then decide (ver.minor > minor)
    else match cmp.patch with
    | none => false
    | some patch =>
      if ver.patch ≠ patch then decide (ver.patch > patch)
      else decide (preCmp ver.pre cmp.pre = .gt)

/-- `matches_less` from the semver crate. -/
def matchesLess (cmp : Comparator) (ver : Version) : Bool :=
  if ver.major ≠ cmp.major then decide (ver.major < cmp.major)
  else match cmp.minor with
  | none => false
  | some minor =>
    if ver.minor ≠ minor then decide (ver.minor < minor)
    else match cmp.patch with
    | none => false
    | some patch =>
      if ver.patch ≠ patch then decide (ver.patch < patch)
      else decide (preCmp ver.pre cmp.pre = .lt)

/-- Shared tail of `matches_tilde`: the optional patch test then the
pre-release comparison. -/
def matchesTildeTail (cmp : Comparator) (ver : Version) : Bool :=
  match cmp.patch with
  | some patch =>
    if ver.patch ≠ patch then decide (ver.patch > patch)
    else decide (preCmp ver.pre cmp.pre ≠ .lt)
  | none => decide (preCmp ver.pre cmp.pre ≠ .lt)

/-- `matches_tilde` from the semver crate. -/
def matchesTilde (cmp : Comparator) (ver : Version) : Bool :=
  if ver.major ≠ cmp.major then false
  else match cmp.minor with
  | some minor => if ver.minor ≠ minor then false else matchesTildeTail cmp ver
  | none => matchesTildeTail cmp ver

/-- `matches_caret` from the semver crate. -/
def matchesCaret (cmp : Comparator) (ver : Version) : Bool :=
  if ver.major ≠ cmp.major then false
  else match cmp.minor with
  | none => true
  | some minor =>
    match cmp.patch with
    | none =>
      if cmp.major > 0 then decide (ver.minor ≥ minor) else decide (ver.minor = minor)
    | some patch =>
      if cmp.major > 0 then
        (if ver.minor ≠ minor then decide (ver.minor > minor)
         else if ver.patch ≠ patch then decide (ver.patch > patch)
         else decide (preCmp ver.pre cmp.pre ≠ .lt))
      else if minor > 0 then
        (if ver.minor ≠ minor then false
         else if ver.patch ≠ patch then decide (ver.patch > patch)
         else decide (preCmp ver.pre cmp.pre ≠ .lt))
      else
        (if ver.minor ≠ minor ∨ ver.patch ≠ patch then false
         else decide (preCmp ver.pre cmp.pre ≠ .lt))

/-- `matches_impl` from the semver crate. -/
def Comparator.matchesImpl (cmp : Comparator) (ver : Version) : Bool :=
  match cmp.op with
  | .Exact | .Wildcard => matchesExact cmp ver
  | .Greater => matchesGreater cmp ver
  | .GreaterEq => matchesExact cmp ver || matchesGreater cmp ver
  | .Less => matchesLess cmp ver
  | .LessEq => matchesExact cmp ver || matchesLess cmp ver
  | .Tilde => matchesTilde cmp ver
  | .Caret => matchesCaret cmp ver

/-- `pre_is_compatible` from the semver crate. -/
def preIsCompatible (cmp : Comparator) (ver : Version) : Bool :=
  decide (cmp.major = ver.major) && decide (cmp.minor = some ver.minor) &&
  decide (cmp.patch = some ver.patch) && !cmp.pre.isEmpty

/-- `VersionReq::matches`: all comparators match, and a pre-release version
additionally needs some comparator with the same triple and a pre-release. -/
def VersionReq.matches (req : VersionReq) (ver : Version) : Bool :=
  req.comparators.all (fun c => c.matchesImpl ver) &&
  (ver.pre.isEmpty || req.comparators.any (fun c => preIsCompatible c ver))

/-! ## Dependency resolution (`wasm-pkg-core/src/resolver.rs`) -/

/-- `VersionInfo` from the client crate: a version plus its yank flag. -/
structure VersionInfo where
  version : Version
  yanked : Bool
  deriving DecidableEq, Repr

/-- `Iterator::max_by` with `a.version.cmp(&b.version)`: a left fold that
keeps the later element on ties. -/
def maxByVersion (l : List VersionInfo) : Option VersionInfo :=
  l.foldl
    (fun acc i =>
      match acc with
      | none => some i
      | some a => if Version.cmp a.version i.version = .gt then some a else some i)
    none

/-- `find_latest_release`: drop yanked and non-matching entries, then take
the maximum by version. -/
def find_latest_release (versions : List VersionInfo) (req : VersionReq) :
    Option VersionInfo :=
  maxByVersion (versions.filter (fun info => !info.yanked && req.matches info.version))

/-- `Release`: a version with its content digest. -/
structure Release where
  version : Version
  content_digest : ContentDigest
  deriving DecidableEq, Repr

/-- The exact-match requirement the resolver builds from a locked version:
`Op::Exact` with the locked major/minor/patch/pre. -/
def exactReq (version : Version) : VersionReq :=
  ⟨[{ op := .Exact, major := version.major, minor := some version.minor,
      patch := some version.patch, pre := version.pre }]⟩

/-- The `bail!` message on lock digest mismatch, with the Rust format
arguments substituted (backticks and braces elided). -/
def digestMismatchMsg (name : Str) (release : Release) (digest : ContentDigest) : Str :=
  "component registry package ".toList ++ name ++ " (v".toList ++
    release.version.render ++ ") has digest ".toList ++
    release.content_digest.render ++
    " but the lock file specifies digest ".toList ++ digest.render

/-- The per-dependency slice of `DependencyResolver::resolve` in online mode:
version selection (exact lock match first, then the requirement), release
fetch, and the lock-digest comparison.  `getRelease` stands for the
registry's `get_release` response for a requested version.  Returns the
`(version, digest)` pair recorded in the emitted `RegistryResolution`. -/
def resolveDependency (name : Str) (versions : List VersionInfo)
    (locked : Option (Version × ContentDigest)) (req : VersionReq)
    (getRelease : Version → Release) : Except Str (Version × ContentDigest) :=
  let selected : Option (Version × Option ContentDigest) :=
    match locked with
    | some (version, digest) =>
      (match find_latest_release versions (exactReq version) with
       | some v => some (v.version, some digest)
       | none => (find_latest_release versions req).map (fun v => (v.version, none)))
    | none => (find_latest_release versions req).map (fun v => (v.version, none))
  match selected with
  | none =>
    .error ("component registry package ".toList ++ name ++
      " has no release matching version requirement".toList)
  | some (selVersion, digest) =>
    let release := getRelease selVersion
    match digest with
    | some d =>
      if release.content_digest ≠ d then
        .error (digestMismatchMsg name release d)
      else .ok (release.version, release.content_digest)
    | none => .ok (release.version, release.content_digest)

/-! ## Lock file (`wasm-pkg-core/src/lock.rs`)

The lock file is serialized with the external `toml` crate, which the spec
treats as an out-of-scope typed-values provider (§1): the on-disk TOML body
is therefore modeled as the typed document the crate transports, i.e. the
`(version, packages)` pair that `LockFile` serializes and
`LockFileIntermediate` deserializes.  File locking is an OS concern outside
this embedding. -/

/-- `LockedPackageVersion`. -/
structure LockedPackageVersion where
  requirement : VersionReq
  version : Version
  digest : ContentDigest
  deriving DecidableEq, Repr

/-- `LockedPackage` (the `versions` list models the serialized `Vec`). -/
structure LockedPackage where
  name : PackageRef
  registry : Option Str
  versions : List LockedPackageVersion
  deriving DecidableEq, Repr

/-- `LockFile` minus the non-serialized `locker` handle. -/
structure LockFile where
  version : Nat
  packages : List LockedPackage
  deriving DecidableEq, Repr

/-- `LockFileIntermediate`: the value the TOML body parses to. -/
structure LockFileIntermediate where
  version : Nat
  packages : List LockedPackage
  deriving DecidableEq, Repr

/-- The state of the lock file on disk: `none` models an absent or
unparseable body, `some` a body that parses to the given document. -/
structure LockFileState where
  content : Option LockFileIntermediate
  deriving DecidableEq, Repr

/-- `LockFile::write`: rewind, truncate, then write the preamble comment and
the serialized `(version, packages)`; the previous content is gone. -/
def LockFile.write (lf : LockFile) (_fs : LockFileState) : LockFileState :=
  ⟨some ⟨lf.version, lf.packages⟩⟩

/-- `LockFileIntermediate::into_lock_file`. -/
def LockFileIntermediate.into_lock_file (i : LockFileIntermediate) : LockFile :=
  ⟨i.version, i.packages⟩

/-- `LockFile::load_from_path`: read and parse the file, fail unless the
stored version is `1` (`LOCK_FILE_V1`), then convert. -/
def LockFile.load_from_path (fs : LockFileState) : Except Str LockFile :=
  match fs.content with
  | none => .error "unable to parse lock file from path".toList
  | some inter =>
    if inter.version ≠ 1 then
      .error ("unsupported lock file version ".toList ++ natRender inter.version)
    else .ok inter.into_lock_file

/-! ## Registry metadata (`wasm-pkg-common/src/metadata.rs`) -/

/-- `RegistryMetadata`.  Field names follow the source
(`preferred_protocol` is the Rust field; the accessor of the same name is
modeled as `RegistryMetadata.preferred_protocol`, so the field is spelled
`preferredProtocol` here, its serde name).  Of the `protocol_configs` map
only the key list is consulted by the functions below, so the values are
not modeled; `ociNamespacePfx` models the `oci_namespace_prefix` alias. -/
structure RegistryMetadata where
  preferredProtocol : Option Str
  protocolConfigKeys : List Str
  ociRegistry : Option Str
  ociNamespacePfx : Option Str
  wargUrl : Option Str
  deriving DecidableEq, Repr

/-- `RegistryMetadata::default()`. -/
def RegistryMetadata.default : RegistryMetadata := ⟨none, [], none, none, none⟩

/-- `RegistryMetadata::preferred_protocol`: the explicit field; else the sole
`protocol_configs` key; else, with no protocol configs, `oci`/`warg` when
exactly the corresponding one of `oci_registry`/`warg_url` is set. -/
def RegistryMetadata.preferred_protocol (m : RegistryMetadata) : Option Str :=
  match m.preferredProtocol with
  | some protocol => some protocol
  | none =>
    if m.protocolConfigKeys.length = 1 then m.protocolConfigKeys.head?
    else if m.protocolConfigKeys.isEmpty then
      match m.ociRegistry.isSome, m.wargUrl.isSome with
      | true, false => some "oci".toList
      | false, true => some "warg".toList
      | _, _ => none
    else none

/-- Modelled from the spec (for the C8 comparison): `preferred_protocol()`
as the claim states it — explicit field; else sole `protocol_configs` key;
else, if only one legacy alias field (`ociRegistry`, `ociNamespacePrefix`
or `wargUrl`) is set, the protocol that alias denotes. -/
def preferredProtocolClaimed (m : RegistryMetadata) : Option Str :=
  match m.preferredProtocol with
  | some protocol => some protocol
  | none =>
    if m.protocolConfigKeys.length = 1 then m.protocolConfigKeys.head?
    else
      match m.ociRegistry, m.ociNamespacePfx, m.wargUrl with
      | some _, none, none => some "oci".toList
      | none, some _, none => some "oci".toList
      | none, none, some _ => some "warg".toList
      | _, _, _ => none

/-- Well-known metadata path (`REGISTRY_METADATA_PATH`). -/
def REGISTRY_METADATA_PATH : Str := "/.well-known/wasm-pkg/registry.json".toList

/-- The URL built by `RegistryMetadata::fetch` (both the
`wasm-pkg-common` and `wasm-pkg-client` implementations): `http` scheme
exactly for host `localhost`, else `https`, followed by the rendered
authority and the well-known path. -/
def metadataFetchUrl (registry : Registry) : Str :=
  let scheme := if registry.host = "localhost".toList then "http".toList else "https".toList
  scheme ++ "://".toList ++ registry.render ++ REGISTRY_METADATA_PATH

/-- Modelled from the spec (for the C7 comparison): the fetch URL as the
claim states it, with `http` for host `localhost` or `127.0.0.1`. -/
def metadataFetchUrlClaimed (registry : Registry) : Str :=
  let scheme :=
    if registry.host = "localhost".toList ∨ registry.host = "127.0.0.1".toList
    then "http".toList else "https".toList
  scheme ++ "://".toList ++ registry.render ++ REGISTRY_METADATA_PATH

/-! ## Backend selection (`wasm-pkg-client/src/lib.rs`, `Client::resolve_source`) -/

/-- `RegistryConfig` from `wasm-pkg-common/src/config.rs`: only the key list
of `backend_configs` is consulted by `default_backend()`. -/
structure RegistryConfig where
  default_backend : Option Str
  backendConfigKeys : List Str
  deriving DecidableEq, Repr

/-- `RegistryConfig::default_backend()`: the configured default, else the
sole configured backend type if there is exactly one. -/
def RegistryConfig.defaultBackend (c : RegistryConfig) : Option Str :=
  match c.default_backend with
  | some ty => some ty
  | none =>
    if c.backendConfigKeys.length = 1 then c.backendConfigKeys.head? else none

/-- The backend-type selection slice of `Client::resolve_source`
(lines 215–270): choose the metadata in use (inline mapping metadata if
present, else the fetched metadata unless the local config selected the
`local` backend), then pick `default_backend()`, else the metadata's
`preferred_protocol()` — rejecting `local` — else `oci`.  `maybe_metadata`
is the inline metadata of a `Custom` registry mapping; `fetched` is what
`RegistryMetadata::fetch_or_default` would return. -/
def resolve_backend_type (registry_config : RegistryConfig)
    (maybe_metadata : Option RegistryMetadata) (fetched : RegistryMetadata) :
    Except Error Str :=
  let should_fetch_meta := registry_config.defaultBackend ≠ some "local".toList
  let registry_meta :=
    match maybe_metadata with
    | some meta => meta
    | none => if should_fetch_meta then fetched else RegistryMetadata.default
  let backend_type : Except Error (Option Str) :=
    match registry_config.defaultBackend with
    | some ty => .ok (some ty)
    | none =>
      let preferred := registry_meta.preferred_protocol
      if preferred = some "local".toList then
        .error (.InvalidRegistryMetadata
          "registry metadata with local protocol not allowed".toList)
      else .ok preferred
  backend_type.map (fun o => o.getD "oci".toList)

/-- Modelled from the spec (for the C6 comparison): backend selection as the
claim states it — `default_backend()`, else `preferred_protocol()`, else
`oci`, failing only when the `local` preference comes from *fetched*
metadata (i.e. no inline metadata was present). -/
def resolveBackendTypeClaimed (registry_config : RegistryConfig)
    (maybe_metadata : Option RegistryMetadata) (fetched : RegistryMetadata) :
    Except Error Str :=
  let should_fetch_meta := registry_config.defaultBackend ≠ some "local".toList
  let registry_meta :=
    match maybe_metadata with
    | some meta => meta
    | none => if should_fetch_meta then fetched else RegistryMetadata.default
  match registry_config.defaultBackend with
  | some ty => .ok ty
  | none =>
    match registry_meta.preferred_protocol with
    | some p =>
      if p = "local".toList ∧ maybe_metadata = none then
        .error (.InvalidRegistryMetadata
          "registry metadata with local protocol not allowed".toList)
      else .ok p
    | none => .ok "oci".toList

/-! ## Dependency decoding (`DependencyResolution::decode`) -/

/-- The wasm magic bytes checked by `decode`: `b"\0asm"`. -/
def wasmMagic : List Byte := [0, 97, 115, 109]

/-- Rust slice indexing `&bytes[lo..hi]`: `none` models the bounds panic. -/
def sliceRange (bytes : List Byte) (lo hi : Nat) : Option (List Byte) :=
  if lo ≤ hi ∧ hi ≤ bytes.length then some ((bytes.drop lo).take (hi - lo)) else none

/-- The byte-content tail of `DependencyResolution::decode`: check
`&bytes[0..4]` against the wasm magic, then hand the bytes to the WIT text
parser or the wasm decoder (both external, abstracted as parameters; their
`Err` results are propagated, so any `Except` result counts as "returns").
`none` models the panic of the slice indexing. -/
def decodeContent {α β : Type} (parseWit : List Byte → Except Str α)
    (decodeWasm : List Byte → Except Str β) (bytes : List Byte) :
    Option (Except Str (α ⊕ β)) :=
  match sliceRange bytes 0 4 with
  | none => none
  | some magic =>
    if magic ≠ wasmMagic then some ((parseWit bytes).map Sum.inl)
    else some ((decodeWasm bytes).map Sum.inr)

/-! ### Comparator laws

`find_latest_release` takes a maximum under `Version.cmp`; the lemmas about
it need `Version.cmp` to be an oriented, transitive comparator.  The
instances below derive this from the structure of the semver ordering. -/

instance instOrientedListLex (cmp : α → α → Ordering) [Batteries.OrientedCmp cmp] :
    Batteries.OrientedCmp (listLexCmp cmp) where
  symm a b := by
    induction a generalizing b with
    | nil => cases b <;> rfl
    | cons x xs ih =>
      cases b with
      | nil => rfl
      | cons y ys =>
        show ((cmp x y).then (listLexCmp cmp xs ys)).swap = (cmp y x).then (listLexCmp cmp ys xs)
        rw [Ordering.swap_then, Batteries.OrientedCmp.symm x y, ih ys]

instance instTransListLex (cmp : α → α → Ordering) [Batteries.TransCmp cmp] :
    Batteries.TransCmp (listLexCmp cmp) where
  le_trans {a b c} h1 h2 := by
    revert h1 h2
    induction a generalizing b c with
    | nil => intro _ _; cases c <;> simp [listLexCmp]
    | cons x xs ih =>
      intro h1 h2
      cases b with
      | nil => exact absurd rfl h1
      | cons y ys =>
        cases c with
        | nil => exact absurd rfl h2
        | cons z zs =>
          simp only [listLexCmp, ne_eq, Ordering.then_eq_gt, not_or, not_and] at h1 h2 ⊢
          obtain ⟨h1a, h1b⟩ := h1
          obtain ⟨h2a, h2b⟩ := h2
          refine ⟨Batteries.TransCmp.le_trans h1a h2a, fun e => ?_⟩
          match exy : cmp x y with
          | .gt => exact absurd exy h1a
          | .eq =>
            have hcongr : cmp x z = cmp y z := Batteries.TransCmp.cmp_congr_left exy
            exact ih (h1b exy) (h2b (by rw [← hcongr]; exact e))
          | .lt =>
            have h3 : cmp x y = cmp z y := Batteries.TransCmp.cmp_congr_left e
            have h4 : cmp y z = .gt :=
              Batteries.OrientedCmp.cmp_eq_gt.mpr (by rw [← h3]; exact exy)
            exact absurd h4 h2a

instance instOrientedChars : Batteries.OrientedCmp charsCmp :=
  instOrientedListLex compare

instance instTransChars : Batteries.TransCmp charsCmp :=
  instTransListLex compare

instance instOrientedPreIdent : Batteries.OrientedCmp PreIdent.cmp where
  symm a b := by
    cases a with
    | num n =>
      cases b with
      | num m => exact @Batteries.OrientedCmp.symm _ compare _ n m
      | alpha t => rfl
    | alpha s =>
      cases b with
      | num m => rfl
      | alpha t => exact @Batteries.OrientedCmp.symm _ charsCmp _ s t

instance instTransPreIdent : Batteries.TransCmp PreIdent.cmp where
  le_trans {a b c} h1 h2 := by
    cases a with
    | num na =>
      cases c with
      | num nc =>
        cases b with
        | num nb => exact @Batteries.TransCmp.le_trans _ compare _ _ _ _ h1 h2
        | alpha sb => exact absurd rfl h2
      | alpha sc => simp [PreIdent.cmp]
    | alpha sa =>
      cases b with
      | num nb => exact absurd rfl h1
      | alpha sb =>
        cases c with
        | num nc => exact absurd rfl h2
        | alpha sc => exact @Batteries.TransCmp.le_trans _ charsCmp _ _ _ _ h1 h2

instance instOrientedIdents : Batteries.OrientedCmp identsCmp :=
  instOrientedListLex PreIdent.cmp

instance instTransIdents : Batteries.TransCmp identsCmp :=
  instTransListLex PreIdent.cmp

instance instOrientedPre : Batteries.OrientedCmp preCmp where
  symm a b := by
    cases a with
    | nil => cases b <;> rfl
    | cons x xs =>
      cases b with
      | nil => rfl
      | cons y ys => exact @Batteries.OrientedCmp.symm _ identsCmp _ (x :: xs) (y :: ys)

instance instTransPre : Batteries.TransCmp preCmp where
  le_trans {a b c} h1 h2 := by
    cases a with
    | nil =>
      cases b with
      | cons y ys => exact absurd rfl h1
      | nil =>
        cases c with
        | cons z zs => exact absurd rfl h2
        | nil => simp [preCmp]
    | cons x xs =>
      cases c with
      | nil => simp [preCmp]
      | cons z zs =>
        cases b with
        | nil => exact absurd rfl h2
        | cons y ys => exact @Batteries.TransCmp.le_trans _ identsCmp _ _ _ _ h1 h2

instance instTransVersionCmp : Batteries.TransCmp Version.cmp := by
  have h : Version.cmp = compareLex (compareOn (·.major))
      (compareLex (compareOn (·.minor))
        (compareLex (compareOn (·.patch)) (Ordering.byKey (·.pre) preCmp))) := by
    funext a b
    rfl
  rw [h]
  infer_instance

/-! ## Theorems -/

/-- Forwarding lemma for the scan: chunk items are forwarded verbatim while
the hasher absorbs their bytes. -/
theorem validatingScan_forward (hashHex : List Byte → Str) (want : ContentDigest)
    (cs : List (List Byte)) (h : List Byte) (rest : List (Except Error (Option (List Byte)))) :
    validatingScan hashHex want h (cs.map (fun c => .ok (some c)) ++ rest) =
      cs.map .ok ++ validatingScan hashHex want (h ++ cs.flatten) rest := by
  induction cs generalizing h with
  | nil => simp
  | cons c cs ih => simp [validatingScan, ih, List.append_assoc]

/-- C1: for every finite chunk sequence, `validating_stream` forwards exactly
the chunks in order; with the matching digest the stream then ends normally,
and with any other digest it ends with a single terminal `InvalidContent`
error after all chunks. -/
theorem validating_stream_spec (hashHex : List Byte → Str) (cs : List (List Byte)) :
    (ContentDigest.validating_stream hashHex (.Sha256 (hashHex cs.flatten)) (cs.map .ok) =
      cs.map .ok)
    ∧ (∀ d' : ContentDigest, d' ≠ .Sha256 (hashHex cs.flatten) →
        ContentDigest.validating_stream hashHex d' (cs.map .ok) =
          cs.map .ok ++
            [.error (.InvalidContent
              (invalidContentMsg d' (.Sha256 (hashHex cs.flatten))))]) := by
  have hmap : ((cs.map Except.ok : List (Except Error (List Byte)))).map (·.map some) =
      cs.map (fun c => .ok (some c)) := by
    simp only [List.map_map]; rfl
  constructor
  · show validatingScan _ _ _ _ = _
    rw [hmap, validatingScan_forward]
    simp [validatingScan]
  · intro d' hne
    show validatingScan _ _ _ _ = _
    rw [hmap, validatingScan_forward]
    simp only [List.nil_append, validatingScan]
    rw [if_neg (fun h => hne h.symm)]

/-- Witness for C1 at a concrete chunk list and a mismatching digest. -/
theorem validating_stream_spec_witness :
    ContentDigest.validating_stream (fun bs => natRender bs.length)
      (.Sha256 "9".toList) [.ok [0], .ok [1, 2]] =
      [.ok [0], .ok [1, 2],
        .error (.InvalidContent
          (invalidContentMsg (.Sha256 "9".toList) (.Sha256 "3".toList)))] :=
  (validating_stream_spec (fun bs => natRender bs.length) [[0], [1, 2]]).2
    (.Sha256 "9".toList) (by decide)

/-- `Char.toLower` on an ASCII uppercase letter adds 32 to the codepoint. -/
theorem toLower_toNat_of_upper {c : Char} (h1 : 65 ≤ c.toNat) (h2 : c.toNat ≤ 90) :
    (Char.toLower c).toNat = c.toNat + 32 := by
  have hvalid : (c.toNat + 32).isValidChar := Or.inl (by omega)
  simp only [Char.toLower, decide_eq_true_eq]
  rw [if_pos ⟨h1, h2⟩]
  show (Char.ofNat (c.toNat + 32)).toNat = c.toNat + 32
  rw [Char.ofNat, dif_pos hvalid]
  rfl

/-- `Char.toLower` fixes every character that is not ASCII uppercase. -/
theorem toLower_eq_self {c : Char} (h : ¬(65 ≤ c.toNat ∧ c.toNat ≤ 90)) :
    Char.toLower c = c := by
  simp only [Char.toLower, decide_eq_true_eq]
  rw [if_neg h]

/-- ASCII-hex-digit-ness is invariant under lowercasing. -/
theorem isAsciiHexdigit_toLower (c : Char) :
    isAsciiHexdigit (Char.toLower c) = isAsciiHexdigit c := by
  by_cases h : 65 ≤ c.toNat ∧ c.toNat ≤ 90
  · have hn := toLower_toNat_of_upper h.1 h.2
    rw [Bool.eq_iff_iff]
    simp only [isAsciiHexdigit, hn, Bool.or_eq_true, Bool.and_eq_true, decide_eq_true_eq]
    omega
  · rw [toLower_eq_self h]

/-- The `sha256:` tag is already lowercase. -/
theorem sha256Tag_toLower : sha256Tag.map Char.toLower = sha256Tag := by decide

/-- C9: the digest parser accepts exactly `sha256:` followed by 64 ASCII hex
digits; on success, rendering the digest yields the lowercased input; on any
other input it fails with `InvalidContentDigest`. -/
theorem tryFrom_spec (s : Str) :
    ((∃ t, s = sha256Tag ++ t ∧ t.length = 64 ∧ ∀ c ∈ t, isAsciiHexdigit c = true) ↔
      ∃ d, ContentDigest.tryFrom s = .ok d)
    ∧ (∀ d, ContentDigest.tryFrom s = .ok d → d.render = s.map Char.toLower)
    ∧ ((¬∃ t, s = sha256Tag ++ t ∧ t.length = 64 ∧ ∀ c ∈ t, isAsciiHexdigit c = true) →
        ∃ msg, ContentDigest.tryFrom s = .error (.InvalidContentDigest msg)) := by
  by_cases hpre : sha256Tag.isPrefixOf s = true
  · obtain ⟨t, ht⟩ : ∃ t, sha256Tag ++ t = s := List.isPrefixOf_iff_prefix.mp hpre
    subst ht
    have hdrop : (sha256Tag ++ t).drop sha256Tag.length = t := List.drop_left _ _
    by_cases hlen : t.length = 64
    · by_cases hhex : ∀ c ∈ t, isAsciiHexdigit c = true
      · have hfind : (t.map Char.toLower).find? (fun c => !isAsciiHexdigit c) = none := by
          rw [List.find?_eq_none]
          intro x hx
          obtain ⟨c, hc, rfl⟩ := List.mem_map.mp hx
          simp [isAsciiHexdigit_toLower, hhex c hc]
        have heval : ContentDigest.tryFrom (sha256Tag ++ t) =
            .ok (.Sha256 (t.map Char.toLower)) := by
          unfold ContentDigest.tryFrom
          rw [if_pos hpre]
          simp only [hdrop]
          rw [if_neg (by simp [hlen]), hfind]
        refine ⟨⟨fun _ => ⟨_, heval⟩, fun _ => ⟨t, rfl, hlen, hhex⟩⟩, ?_, ?_⟩
        · intro d hd
          rw [heval] at hd
          cases hd
          simp [ContentDigest.render, sha256Tag_toLower]
        · intro hno
          exact absurd ⟨t, rfl, hlen, hhex⟩ hno
      · have hfind : ∃ w, (t.map Char.toLower).find? (fun c => !isAsciiHexdigit c) = some w := by
          rcases hw : (t.map Char.toLower).find? (fun c => !isAsciiHexdigit c) with _ | w
          · exfalso
            apply hhex
            intro c hc
            have := List.find?_eq_none.mp hw (Char.toLower c) (List.mem_map_of_mem _ hc)
            simpa [isAsciiHexdigit_toLower] using this
          · exact ⟨w, rfl⟩
        obtain ⟨w, hw⟩ := hfind
        have heval : ContentDigest.tryFrom (sha256Tag ++ t) =
            .error (.InvalidContentDigest "must be hex".toList) := by
          unfold ContentDigest.tryFrom
          rw [if_pos hpre]
          simp only [hdrop]
          rw [if_neg (by simp [hlen]), hw]
        have hnotacc : ¬∃ t', sha256Tag ++ t = sha256Tag ++ t' ∧ t'.length = 64 ∧
            ∀ c ∈ t', isAsciiHexdigit c = true := by
          rintro ⟨t', ht', _, hh'⟩
          exact hhex (List.append_cancel_left ht' ▸ hh')
        exact ⟨⟨fun h => absurd h hnotacc, fun ⟨d, hd⟩ => by simp [heval] at hd⟩,
          fun d hd => by simp [heval] at hd, fun _ => ⟨_, heval⟩⟩
    · have heval : ContentDigest.tryFrom (sha256Tag ++ t) =
          .error (.InvalidContentDigest "must be 64 hex digits".toList) := by
        unfold ContentDigest.tryFrom
        rw [if_pos hpre]
        simp only [hdrop]
        rw [if_pos (by simp [hlen])]
      have hnotacc : ¬∃ t', sha256Tag ++ t = sha256Tag ++ t' ∧ t'.length = 64 ∧
          ∀ c ∈ t', isAsciiHexdigit c = true := by
        rintro ⟨t', ht', hl', _⟩
        exact hlen (List.append_cancel_left ht' ▸ hl')
      exact ⟨⟨fun h => absurd h hnotacc, fun ⟨d, hd⟩ => by simp [heval] at hd⟩,
        fun d hd => by simp [heval] at hd, fun _ => ⟨_, heval⟩⟩
  · have heval : ContentDigest.tryFrom s =
        .error (.InvalidContentDigest "must start with sha256:".toList) := by
      unfold ContentDigest.tryFrom
      rw [if_neg hpre]
    have hnotacc : ¬∃ t, s = sha256Tag ++ t ∧ t.length = 64 ∧
        ∀ c ∈ t, isAsciiHexdigit c = true := by
      rintro ⟨t, rfl, _, _⟩
      exact hpre (List.isPrefixOf_iff_prefix.mpr ⟨t, rfl⟩)
    exact ⟨⟨fun h => absurd h hnotacc, fun ⟨d, hd⟩ => by simp [heval] at hd⟩,
      fun d hd => by simp [heval] at hd, fun _ => ⟨_, heval⟩⟩

/-- Witness for C9 at a concrete accepted digest string. -/
theorem tryFrom_spec_witness :
    ∀ d, ContentDigest.tryFrom ("sha256:".toList ++ List.replicate 64 'A') = .ok d →
      d.render = ("sha256:".toList ++ List.replicate 64 'A').map Char.toLower :=
  (tryFrom_spec ("sha256:".toList ++ List.replicate 64 'A')).2.1

/-- C2: `Config::resolve_registry` returns the first match among package
override, namespace registry, default registry, and built-in fallback, and
returns `none` exactly when all four miss. -/
theorem resolve_registry_spec (c : Config) (package : PackageRef) :
    (∀ r, lookupKey c.package_registry_overrides package = some r →
      c.resolve_registry package = some r)
    ∧ (lookupKey c.package_registry_overrides package = none →
        ∀ r, lookupKey c.namespace_registries package.ns = some r →
          c.resolve_registry package = some r)
    ∧ (lookupKey c.package_registry_overrides package = none →
        lookupKey c.namespace_registries package.ns = none →
        ∀ r, c.default_registry = some r → c.resolve_registry package = some r)
    ∧ (lookupKey c.package_registry_overrides package = none →
        lookupKey c.namespace_registries package.ns = none →
        c.default_registry = none →
        c.resolve_registry package = lookupKey c.fallback_namespace_registries package.ns)
    ∧ (c.resolve_registry package = none ↔
        lookupKey c.package_registry_overrides package = none ∧
        lookupKey c.namespace_registries package.ns = none ∧
        c.default_registry = none ∧
        lookupKey c.fallback_namespace_registries package.ns = none) := by
  refine ⟨fun r h1 => ?_, fun h1 r h2 => ?_, fun h1 h2 r h3 => ?_, fun h1 h2 h3 => ?_, ?_⟩
  · simp [Config.resolve_registry, h1]
  · simp [Config.resolve_registry, h1, h2]
  · simp [Config.resolve_registry, h1, h2, h3]
  · simp [Config.resolve_registry, h1, h2, h3]
  · constructor
    · intro h
      rcases e1 : lookupKey c.package_registry_overrides package with _ | r1
      · rcases e2 : lookupKey c.namespace_registries package.ns with _ | r2
        · rcases e3 : c.default_registry with _ | r3
          · refine ⟨rfl, rfl, rfl, ?_⟩
            simpa [Config.resolve_registry, e1, e2, e3] using h
          · simp [Config.resolve_registry, e1, e2, e3] at h
        · simp [Config.resolve_registry, e1, e2] at h
      · simp [Config.resolve_registry, e1] at h
    · rintro ⟨h1, h2, h3, h4⟩
      simp [Config.resolve_registry, h1, h2, h3, h4]

/-- Witness for C2: a config where all four sources miss resolves to none. -/
theorem resolve_registry_spec_witness :
    Config.resolve_registry ⟨none, [], [], []⟩ ⟨"n".toList, "p".toList⟩ = none ↔
      lookupKey ([] : List (PackageRef × Registry)) ⟨"n".toList, "p".toList⟩ = none ∧
      lookupKey ([] : List (Label × Registry)) "n".toList = none ∧
      (none : Option Registry) = none ∧
      lookupKey ([] : List (Label × Registry)) "n".toList = none :=
  (resolve_registry_spec ⟨none, [], [], []⟩ ⟨"n".toList, "p".toList⟩).2.2.2.2

/-- C5: writing a version-1 lock file and re-reading it restores the same
`(version, packages)`; loading fails whenever the stored version is not 1. -/
theorem lockfile_write_load_spec (L : LockFile) (fs fs' : LockFileState) :
    (L.version = 1 → LockFile.load_from_path (L.write fs) = .ok ⟨L.version, L.packages⟩)
    ∧ (∀ doc, fs'.content = some doc → doc.version ≠ 1 →
        ∃ msg, LockFile.load_from_path fs' = .error msg) := by
  constructor
  · intro h1
    simp [LockFile.write, LockFile.load_from_path, h1, LockFileIntermediate.into_lock_file]
  · intro doc hdoc hver
    exact ⟨"unsupported lock file version ".toList ++ natRender doc.version,
      by simp [LockFile.load_from_path, hdoc, hver]⟩

/-- Witness for C5 at a concrete lock file and a concrete bad version. -/
theorem lockfile_write_load_spec_witness :
    LockFile.load_from_path (LockFile.write ⟨1, []⟩ ⟨none⟩) = .ok ⟨1, []⟩ ∧
      ∃ msg, LockFile.load_from_path ⟨some ⟨2, []⟩⟩ = .error msg :=
  ⟨(lockfile_write_load_spec ⟨1, []⟩ ⟨none⟩ ⟨some ⟨2, []⟩⟩).1 rfl,
    (lockfile_write_load_spec ⟨1, []⟩ ⟨none⟩ ⟨some ⟨2, []⟩⟩).2 ⟨2, []⟩ rfl (by decide)⟩

/-- C10: the `&bytes[0..4]` magic check of `DependencyResolution::decode` is
in bounds, and `decode` returns a result, exactly when the content is at
least 4 bytes; on shorter content the slice indexing panics. -/
theorem decodeContent_bounds {α β : Type} (parseWit : List Byte → Except Str α)
    (decodeWasm : List Byte → Except Str β) (bytes : List Byte) :
    (4 ≤ bytes.length → ∃ r, decodeContent parseWit decodeWasm bytes = some r)
    ∧ (bytes.length < 4 → decodeContent parseWit decodeWasm bytes = none) := by
  constructor
  · intro h
    have hs : sliceRange bytes 0 4 = some (bytes.take 4) := by
      simp [sliceRange, h]
    by_cases hm : bytes.take 4 ≠ wasmMagic
    · exact ⟨_, by simp only [decodeContent, hs]; rw [if_pos hm]⟩
    · exact ⟨_, by simp only [decodeContent, hs]; rw [if_neg hm]⟩
  · intro h
    have hs : sliceRange bytes 0 4 = none := by
      simp only [sliceRange, ite_eq_right_iff]
      omega
    simp only [decodeContent, hs]

/-- Witness for C10: a 5-byte input decodes, a 2-byte input panics. -/
theorem decodeContent_bounds_witness :
    (∃ r, decodeContent (fun _ => .ok ()) (fun _ => .ok ()) [0, 97, 115, 109, 0] = some r)
    ∧ decodeContent (fun _ => .ok ()) (fun _ => .ok ()) [0, 97] = none :=
  ⟨(decodeContent_bounds (fun _ => .ok ()) (fun _ => .ok ()) [0, 97, 115, 109, 0]).1
      (by decide),
    (decodeContent_bounds (fun _ => .ok ()) (fun _ => .ok ()) [0, 97]).2 (by decide)⟩

/-- C6 counterexample: with no configured backend and an *inline* registry
mapping whose metadata prefers `local`, the claim predicts backend `local`
(its error clause only covers fetched metadata), but `resolve_source`
rejects the metadata.  The spec-modelled `resolveBackendTypeClaimed` and the
code disagree at this input. -/
theorem resolve_backend_type_claim_counterexample :
    resolveBackendTypeClaimed ⟨none, []⟩
        (some ⟨some "local".toList, [], none, none, none⟩) RegistryMetadata.default =
      .ok "local".toList
    ∧ resolve_backend_type ⟨none, []⟩
        (some ⟨some "local".toList, [], none, none, none⟩) RegistryMetadata.default =
      .error (.InvalidRegistryMetadata
        "registry metadata with local protocol not allowed".toList) := by
  constructor <;> decide

/-- C6 amended: the backend is `default_backend()` if set, else the used
metadata's `preferred_protocol()`, else `oci`; and whenever the metadata in
use (inline *or* fetched) prefers `local` while `default_backend()` is
unset, construction fails with `InvalidRegistryMetadata`. -/
theorem resolve_backend_type_amended (registry_config : RegistryConfig)
    (maybe_metadata : Option RegistryMetadata) (fetched : RegistryMetadata) :
    (∀ t, registry_config.defaultBackend = some t →
      resolve_backend_type registry_config maybe_metadata fetched = .ok t)
    ∧ (registry_config.defaultBackend = none →
        (match maybe_metadata with
          | some meta => meta
          | none => fetched).preferred_protocol = none →
        resolve_backend_type registry_config maybe_metadata fetched = .ok "oci".toList)
    ∧ (∀ p, registry_config.defaultBackend = none →
        (match maybe_metadata with
          | some meta => meta
          | none => fetched).preferred_protocol = some p →
        p ≠ "local".toList →
        resolve_backend_type registry_config maybe_metadata fetched = .ok p)
    ∧ (registry_config.defaultBackend = none →
        (match maybe_metadata with
          | some meta => meta
          | none => fetched).preferred_protocol = some "local".toList →
        resolve_backend_type registry_config maybe_metadata fetched =
          .error (.InvalidRegistryMetadata
            "registry metadata with local protocol not allowed".toList)) := by
  refine ⟨fun t ht => ?_, fun h1 h2 => ?_, fun p h1 h2 h3 => ?_, fun h1 h2 => ?_⟩ <;>
    cases maybe_metadata <;>
    simp_all [resolve_backend_type, Except.map]

/-- Witness for the amended C6: explicit default backend wins. -/
theorem resolve_backend_type_amended_witness :
    resolve_backend_type ⟨some "warg".toList, []⟩ none RegistryMetadata.default =
      .ok "warg".toList :=
  (resolve_backend_type_amended ⟨some "warg".toList, []⟩ none
    RegistryMetadata.default).1 "warg".toList (by decide)

/-- C7 counterexample: for host `127.0.0.1` the code builds an `https` URL,
while the claim (modelled by `metadataFetchUrlClaimed`) predicts `http`. -/
theorem metadata_fetch_url_claim_counterexample :
    metadataFetchUrl ⟨"127.0.0.1".toList, none⟩ =
      "https://127.0.0.1/.well-known/wasm-pkg/registry.json".toList
    ∧ metadataFetchUrlClaimed ⟨"127.0.0.1".toList, none⟩ =
      "http://127.0.0.1/.well-known/wasm-pkg/registry.json".toList
    ∧ metadataFetchUrl ⟨"127.0.0.1".toList, none⟩ ≠
      metadataFetchUrlClaimed ⟨"127.0.0.1".toList, none⟩ := by
  refine ⟨by decide, by decide, by decide⟩

/-- C7 amended: the metadata URL uses scheme `http` exactly for host
`localhost` (every other host, including `127.0.0.1`, gets `https`),
followed by the rendered authority and the well-known path. -/
theorem metadata_fetch_url_amended (r : Registry) :
    (r.host = "localhost".toList →
      metadataFetchUrl r = "http://".toList ++ r.render ++ REGISTRY_METADATA_PATH)
    ∧ (r.host ≠ "localhost".toList →
      metadataFetchUrl r = "https://".toList ++ r.render ++ REGISTRY_METADATA_PATH) := by
  constructor
  · intro h
    simp [metadataFetchUrl, h]
  · intro h
    simp only [metadataFetchUrl]
    rw [if_neg h]
    simp

/-- Witness for the amended C7 at concrete localhost and non-localhost
registries. -/
theorem metadata_fetch_url_amended_witness :
    metadataFetchUrl ⟨"localhost".toList, some 8080⟩ =
      "http://".toList ++ Registry.render ⟨"localhost".toList, some 8080⟩ ++
        REGISTRY_METADATA_PATH :=
  (metadata_fetch_url_amended ⟨"localhost".toList, some 8080⟩).1 (by decide)

/-- C8 counterexample: with only the legacy `oci_namespace_prefix` alias
set, the claim (modelled by `preferredProtocolClaimed`) predicts `oci`, but
`preferred_protocol()` returns none — the legacy branch only consults
`oci_registry` and `warg_url`. -/
theorem preferred_protocol_claim_counterexample :
    preferredProtocolClaimed ⟨none, [], none, some "p".toList, none⟩ = some "oci".toList
    ∧ RegistryMetadata.preferred_protocol ⟨none, [], none, some "p".toList, none⟩ = none := by
  constructor <;> decide

/-- C8 amended: `preferred_protocol()` is the explicit field if present;
else the sole `protocol_configs` key if there is exactly one; else, with no
protocol configs, `oci`/`warg` when exactly the corresponding one of
`ociRegistry`/`wargUrl` is set (`ociNamespacePrefix` is never consulted);
else none. -/
theorem preferred_protocol_amended (m : RegistryMetadata) :
    (∀ p, m.preferredProtocol = some p → m.preferred_protocol = some p)
    ∧ (m.preferredProtocol = none → m.protocolConfigKeys.length = 1 →
        m.preferred_protocol = m.protocolConfigKeys.head?)
    ∧ (m.preferredProtocol = none → m.protocolConfigKeys = [] →
        m.preferred_protocol =
          (match m.ociRegistry, m.wargUrl with
            | some _, none => some "oci".toList
            | none, some _ => some "warg".toList
            | _, _ => none))
    ∧ (m.preferredProtocol = none → 2 ≤ m.protocolConfigKeys.length →
        m.preferred_protocol = none) := by
  refine ⟨fun p hp => ?_, fun h1 h2 => ?_, fun h1 h2 => ?_, fun h1 h2 => ?_⟩
  · simp [RegistryMetadata.preferred_protocol, hp]
  · simp [RegistryMetadata.preferred_protocol, h1, h2]
  · simp only [RegistryMetadata.preferred_protocol, h1, h2]
    cases m.ociRegistry <;> cases m.wargUrl <;> simp
  · have hne : m.protocolConfigKeys.length ≠ 1 := by omega
    have hempty : ¬m.protocolConfigKeys.isEmpty := by
      cases h : m.protocolConfigKeys with
      | nil => rw [h] at h2; simp at h2
      | cons a l => simp
    simp [RegistryMetadata.preferred_protocol, h1, hne, hempty]

/-- Witness for the amended C8: a sole protocol config key is preferred. -/
theorem preferred_protocol_amended_witness :
    RegistryMetadata.preferred_protocol ⟨none, ["warg".toList], none, none, none⟩ =
      ["warg".toList].head? :=
  (preferred_protocol_amended ⟨none, ["warg".toList], none, none, none⟩).2.1 rfl rfl

/-- Fold invariant for `Iterator::max_by`: starting from `some a`, the fold
returns an element that is `a` or in the list, is at least `a`, and is at
least every list element (under `Version.cmp`). -/
theorem foldlMax_go (l : List VersionInfo) (a : VersionInfo) :
    ∃ m, List.foldl
        (fun acc i =>
          match acc with
          | none => some i
          | some a => if Version.cmp a.version i.version = .gt then some a else some i)
        (some a) l = some m ∧ (m = a ∨ m ∈ l) ∧
      Version.cmp a.version m.version ≠ .gt ∧
      ∀ x ∈ l, Version.cmp x.version m.version ≠ .gt := by
  induction l generalizing a with
  | nil =>
    refine ⟨a, rfl, Or.inl rfl, ?_, by simp⟩
    have hrefl : Version.cmp a.version a.version = .eq := Batteries.OrientedCmp.cmp_refl
    rw [hrefl]
    simp
  | cons i l ih =>
    by_cases hgt : Version.cmp a.version i.version = .gt
    · obtain ⟨m, hm, hmem, hle, hall⟩ := ih a
      refine ⟨m, ?_, ?_, hle, ?_⟩
      · rw [List.foldl_cons]
        simpa [hgt] using hm
      · rcases hmem with h | h
        · exact Or.inl h
        · exact Or.inr (List.mem_cons_of_mem _ h)
      · intro x hx
        rcases List.mem_cons.mp hx with rfl | hx
        · have hia : Version.cmp x.version a.version = .lt :=
            Batteries.OrientedCmp.cmp_eq_gt.mp hgt
          rw [Batteries.TransCmp.lt_le_trans hia hle]
          simp
        · exact hall x hx
    · obtain ⟨m, hm, hmem, hle, hall⟩ := ih i
      refine ⟨m, ?_, ?_, Batteries.TransCmp.le_trans hgt hle, ?_⟩
      · rw [List.foldl_cons]
        simpa [hgt] using hm
      · rcases hmem with rfl | h
        · exact Or.inr (List.mem_cons_self _ _)
        · exact Or.inr (List.mem_cons_of_mem _ h)
      · intro x hx
        rcases List.mem_cons.mp hx with rfl | hx
        · exact hle
        · exact hall x hx

/-- `maxByVersion` on a non-empty list returns a member that is maximal
under `Version.cmp`. -/
theorem maxByVersion_some (l : List VersionInfo) (hne : l ≠ []) :
    ∃ m, maxByVersion l = some m ∧ m ∈ l ∧
      ∀ x ∈ l, Version.cmp x.version m.version ≠ .gt := by
  cases l with
  | nil => exact absurd rfl hne
  | cons i l =>
    obtain ⟨m, hm, hmem, hle, hall⟩ := foldlMax_go l i
    refine ⟨m, ?_, ?_, ?_⟩
    · simpa [maxByVersion] using hm
    · rcases hmem with rfl | h
      · exact List.mem_cons_self _ _
      · exact List.mem_cons_of_mem _ h
    · intro x hx
      rcases List.mem_cons.mp hx with rfl | hx
      · exact hle
      · exact hall x hx

/-- `maxByVersion` returns none exactly on the empty list. -/
theorem maxByVersion_none_iff (l : List VersionInfo) :
    maxByVersion l = none ↔ l = [] := by
  constructor
  · intro h
    by_contra hne
    obtain ⟨m, hm, _⟩ := maxByVersion_some l hne
    rw [hm] at h
    cases h
  · rintro rfl
    rfl

/-- C3: `find_latest_release` picks a maximal non-yanked matching version
(and `resolve` records the corresponding release when no lock entry is in
play), returns none exactly when no non-yanked version matches, and on the
version list `[1.0.0, 1.1.0 (yanked), 1.2.0]` with requirement `^1.0` it
picks `1.2.0`. -/
theorem find_latest_release_spec (versions : List VersionInfo) (req : VersionReq) :
    (∀ v, find_latest_release versions req = some v →
      (v ∈ versions ∧ v.yanked = false ∧ req.matches v.version = true ∧
        ∀ w ∈ versions, w.yanked = false → req.matches w.version = true →
          Version.cmp w.version v.version ≠ .gt)
      ∧ ∀ (name : Str) (getRelease : Version → Release),
          resolveDependency name versions none req getRelease =
            .ok ((getRelease v.version).version, (getRelease v.version).content_digest))
    ∧ (find_latest_release versions req = none ↔
        ∀ w ∈ versions, ¬(w.yanked = false ∧ req.matches w.version = true))
    ∧ find_latest_release
        [⟨⟨1, 0, 0, []⟩, false⟩, ⟨⟨1, 1, 0, []⟩, true⟩, ⟨⟨1, 2, 0, []⟩, false⟩]
        ⟨[⟨.Caret, 1, some 0, none, []⟩]⟩ = some ⟨⟨1, 2, 0, []⟩, false⟩ := by
  refine ⟨fun v hv => ⟨?_, fun name getRelease => ?_⟩, ?_, by decide⟩
  · have hne : versions.filter (fun info => !info.yanked && req.matches info.version) ≠ [] := by
      intro h
      rw [find_latest_release, h] at hv
      cases hv
    obtain ⟨m, hm, hmem, hall⟩ := maxByVersion_some _ hne
    rw [find_latest_release, hm] at hv
    cases hv
    have hfv := List.mem_filter.mp hmem
    have hp := hfv.2
    simp only [Bool.and_eq_true, Bool.not_eq_true'] at hp
    refine ⟨hfv.1, hp.1, hp.2, fun w hw hwy hwm => ?_⟩
    exact hall w (List.mem_filter.mpr ⟨hw, by simp [hwy, hwm]⟩)
  · simp [resolveDependency, hv]
  · rw [find_latest_release, maxByVersion_none_iff, List.filter_eq_nil_iff]
    constructor
    · intro h w hw
      have := h w hw
      simp only [Bool.and_eq_true, Bool.not_eq_true'] at this
      exact fun hc => this ⟨hc.1, hc.2⟩
    · intro h w hw
      have := h w hw
      simp only [Bool.and_eq_true, Bool.not_eq_true']
      exact fun hc => this ⟨hc.1, hc.2⟩

/-- Witness for C3: the maximality facts at the concrete version list of
the claim. -/
theorem find_latest_release_spec_witness :
    (⟨⟨1, 2, 0, []⟩, false⟩ : VersionInfo) ∈
        ([⟨⟨1, 0, 0, []⟩, false⟩, ⟨⟨1, 1, 0, []⟩, true⟩, ⟨⟨1, 2, 0, []⟩, false⟩] :
          List VersionInfo)
    ∧ (⟨⟨1, 2, 0, []⟩, false⟩ : VersionInfo).yanked = false
    ∧ VersionReq.matches ⟨[⟨.Caret, 1, some 0, none, []⟩]⟩ ⟨1, 2, 0, []⟩ = true
    ∧ ∀ w ∈ ([⟨⟨1, 0, 0, []⟩, false⟩, ⟨⟨1, 1, 0, []⟩, true⟩, ⟨⟨1, 2, 0, []⟩, false⟩] :
          List VersionInfo),
        w.yanked = false →
        VersionReq.matches ⟨[⟨.Caret, 1, some 0, none, []⟩]⟩ w.version = true →
        Version.cmp w.version (⟨1, 2, 0, []⟩ : Version) ≠ .gt :=
  ((find_latest_release_spec
      [⟨⟨1, 0, 0, []⟩, false⟩, ⟨⟨1, 1, 0, []⟩, true⟩, ⟨⟨1, 2, 0, []⟩, false⟩]
      ⟨[⟨.Caret, 1, some 0, none, []⟩]⟩).1 ⟨⟨1, 2, 0, []⟩, false⟩ (by decide)).1

/-- C4: when the resolver selects a version through the exact lock match,
a digest mismatch between the fetched release and the lock entry fails with
a message citing both digests, and a match succeeds. -/
theorem resolveDependency_locked_digest_spec
    (name : Str) (versions : List VersionInfo) (lv : Version) (d : ContentDigest)
    (req : VersionReq) (getRelease : Version → Release) (vi : VersionInfo)
    (hfind : find_latest_release versions (exactReq lv) = some vi) :
    ((getRelease vi.version).content_digest ≠ d →
      ∃ msg, resolveDependency name versions (some (lv, d)) req getRelease = .error msg ∧
        (getRelease vi.version).content_digest.render <:+: msg ∧
        d.render <:+: msg)
    ∧ ((getRelease vi.version).content_digest = d →
      resolveDependency name versions (some (lv, d)) req getRelease =
        .ok ((getRelease vi.version).version, (getRelease vi.version).content_digest)) := by
  constructor
  · intro hne
    refine ⟨digestMismatchMsg name (getRelease vi.version) d, ?_, ?_, ?_⟩
    · simp [resolveDependency, hfind, hne]
    · exact ⟨"component registry package ".toList ++ name ++ " (v".toList ++
        (getRelease vi.version).version.render ++ ") has digest ".toList,
        " but the lock file specifies digest ".toList ++ d.render,
        by simp [digestMismatchMsg, List.append_assoc]⟩
    · exact ⟨"component registry package ".toList ++ name ++ " (v".toList ++
        (getRelease vi.version).version.render ++ ") has digest ".toList ++
        (getRelease vi.version).content_digest.render ++
        " but the lock file specifies digest ".toList, [],
        by simp [digestMismatchMsg, List.append_assoc]⟩
  · intro heq
    simp [resolveDependency, hfind, heq]

/-- Witness for C4: a concrete lock entry whose digest disagrees with the
registry release. -/
theorem resolveDependency_locked_digest_spec_witness :
    ∃ msg, resolveDependency "dep".toList [⟨⟨1, 1, 0, []⟩, false⟩]
        (some (⟨1, 1, 0, []⟩, .Sha256 "aa".toList)) ⟨[]⟩
        (fun _ => ⟨⟨1, 1, 0, []⟩, .Sha256 "bb".toList⟩) = .error msg ∧
      (ContentDigest.Sha256 "bb".toList).render <:+: msg ∧
      (ContentDigest.Sha256 "aa".toList).render <:+: msg :=
  (resolveDependency_locked_digest_spec "dep".toList [⟨⟨1, 1, 0, []⟩, false⟩]
      ⟨1, 1, 0, []⟩ (.Sha256 "aa".toList) ⟨[]⟩
      (fun _ => ⟨⟨1, 1, 0, []⟩, .Sha256 "bb".toList⟩) ⟨⟨1, 1, 0, []⟩, false⟩
      (by decide)).1 (by decide)

end WasmPkg
